import Mathlib

/-!
Verification development for the email → quote extraction pipeline
(`app/extract/pipeline.py`, `app/extract/normalize.py`, `app/extract/llm.py`,
`app/extract/prefilter.py`, `app/db/crud/vendors.py`, `app/db/crud/quotes.py`).

Modelling conventions:
* Python `Decimal` values are modelled as exact rationals (`ℚ`); every finite
  decimal is a rational and the operations used (`+`, `*`, `-`) are exact.
* A JSON leaf value reaching `_to_decimal` is modelled by `JVal`: either a
  value `v` with `Decimal(str(v)) = q` (`JVal.num q`), or a value on which
  `Decimal(str(v))` raises (`JVal.bad t`, carrying its Python truthiness `t`).
* Python `None` is `Option.none`; Python `x or y` is translated through
  explicit truthiness helpers (`pyOrStr`, `pyOrDec`, `pyOrJ`).
* Python strings are `String`, except in the prefilter where `str` is
  modelled as `List Char` so that substring reasoning is elementary.
* SQLAlchemy tables are lists of rows; `one_or_none` raises
  `MultipleResultsFound` when the filter matches more than one row, modelled
  with `Except`.  Autoincrement ids come from per-table counters.
-/

/-- A JSON leaf value as seen by `_to_decimal` in `app/extract/normalize.py`:
`num q` is a value that `Decimal(str(v))` parses to the exact decimal `q`
(numbers and numeric strings); `bad t` is a non-null value on which
`Decimal(str(v))` raises (`t` records its Python truthiness). -/
inductive JVal where
  | num (q : ℚ)
  | bad (truthy : Bool)
deriving DecidableEq, Repr

/-- `_to_decimal` from `app/extract/normalize.py`: `None` stays `None`,
parse failures become `None`, otherwise the exact decimal value. -/
def toDecimal : Option JVal → Option ℚ
  | some (.num q) => some q
  | some (.bad _) => none
  | none => none

/-- Python `x or d` for an `Optional[Decimal]` `x`: `None` and `Decimal("0")`
are falsy. -/
def pyOrDec (v : Option ℚ) (d : ℚ) : ℚ :=
  match v with
  | some q => if q = 0 then d else q
  | none => d

/-- Python truthiness of an `Optional[str]`: `None` and `""` are falsy. -/
def pyTruthyStr (s : Option String) : Bool :=
  match s with
  | some t => t ≠ ""
  | none => false

/-- Python `x or d` for an `Optional[str]` `x`. -/
def pyOrStr (v : Option String) (d : String) : String :=
  match v with
  | some s => if s = "" then d else s
  | none => d

/-- Python truthiness of an `Optional[int]`: `None` and `0` are falsy. -/
def pyTruthyNat (n : Option Nat) : Bool :=
  match n with
  | some m => m ≠ 0
  | none => false

/-- Python truthiness of a `JVal`. -/
def jvalTruthy : JVal → Bool
  | .num q => q ≠ 0
  | .bad t => t

/-- Python `x or d` for an `Optional` JSON leaf value `x`. -/
def pyOrJ (v : Option JVal) (d : JVal) : JVal :=
  match v with
  | some j => if jvalTruthy j then j else d
  | none => d

/-- `compute_line_total` from `app/extract/normalize.py`:
`total = quantity * unit_price; if discount: total -= discount`. -/
def compute_line_total (quantity unit_price : ℚ) (discount : Option ℚ) : ℚ :=
  let total := quantity * unit_price
  match discount with
  | some d => if d = 0 then total else total - d
  | none => total

/-- `sum_totals` from `app/extract/normalize.py`: a left fold of decimal
addition starting from `Decimal("0")`. -/
def sum_totals (values : List ℚ) : ℚ :=
  values.foldl (fun s v => s + v) 0

/-- The `valid_till` value of a version dict: either a string together with
the outcome of `date.fromisoformat` on it (`none` when parsing raises), or a
non-string value passed through unchanged (its truthiness recorded). -/
inductive VTill where
  | vstr (s : String) (iso : Option Nat)
  | vother (truthy : Bool)
deriving DecidableEq, Repr

/-- One item dict of an extraction (`versions[].items[]`). -/
structure Item where
  sku : Option String := none
  description : Option String := none
  quantity : Option JVal := none
  unit_price : Option JVal := none
  discount : Option JVal := none
  line_total : Option JVal := none
deriving DecidableEq, Repr

/-- One version dict of an extraction (`versions[]`). -/
structure Version where
  version_label : Option String := none
  currency : Option String := none
  items : List Item := []
  subtotal : Option JVal := none
  tax : Option JVal := none
  shipping : Option JVal := none
  total : Option JVal := none
  valid_till : Option VTill := none
  terms : Option String := none
deriving DecidableEq, Repr

/-- The extraction dict produced by the LLM adapter, typed per the fixed
schema: `vendor.name`, `vendor.domain`, `versions`. -/
structure Extraction where
  vendor_name : Option String := none
  vendor_domain : Option String := none
  versions : List Version := []
deriving DecidableEq, Repr

/-- The per-item body of the loop in `normalize_extraction`:
`q = _to_decimal(quantity) or 0`, `p = _to_decimal(unit_price) or 0`,
`d = _to_decimal(discount)`, `it["line_total"] = compute_line_total(q, p, d)`.
The decimal value pushed onto `dec_items` for this item. -/
def itemLineTotalQ (it : Item) : ℚ :=
  compute_line_total (pyOrDec (toDecimal it.quantity) 0)
    (pyOrDec (toDecimal it.unit_price) 0) (toDecimal it.discount)

/-- The item dict after `normalize_extraction` has set its `line_total`. -/
def normItem (it : Item) : Item :=
  { it with line_total := some (.num (itemLineTotalQ it)) }

/-- The per-version body of the loop in `normalize_extraction`: set every
item's `line_total`; derive `subtotal` from `sum_totals` when
`_to_decimal(subtotal)` is `None`; derive `total` as
`subtotal + tax + shipping` when `_to_decimal(total)` is `None`. -/
def normVersion (v : Version) : Version :=
  let items2 := v.items.map normItem
  let dec_items := v.items.map itemLineTotalQ
  let subQ : ℚ × Option JVal :=
    match toDecimal v.subtotal with
    | none => (sum_totals dec_items, some (.num (sum_totals dec_items)))
    | some q => (q, v.subtotal)
  let tax := pyOrDec (toDecimal v.tax) 0
  let shipping := pyOrDec (toDecimal v.shipping) 0
  let tot : Option JVal :=
    match toDecimal v.total with
    | none => some (.num (subQ.1 + tax + shipping))
    | some _ => v.total
  { v with items := items2, subtotal := subQ.2, total := tot }

/-- `normalize_extraction` from `app/extract/normalize.py` (functional form of
the in-place mutation: every version is normalized, the rest of the dict is
unchanged). -/
def normalize_extraction (data : Extraction) : Extraction :=
  { data with versions := data.versions.map normVersion }

/-! Specification-side arithmetic, written from the spec's words (§4.4):
"convert quantity, unit price, and discount to exact decimal values
(absent/unparseable → zero for quantity and price, absent discount → no
deduction); `line_total = quantity * unit_price - discount`". -/

/-- Spec-side conversion: absent or unparseable values read as zero. -/
def specToQ : Option JVal → ℚ
  | some (.num q) => q
  | some (.bad _) => 0
  | none => 0

/-- Spec-side line total: `quantity * unit_price - discount` with absent
discount meaning no deduction (subtracting zero). -/
def specLineTotal (it : Item) : ℚ :=
  specToQ it.quantity * specToQ it.unit_price - specToQ it.discount

/-- Spec-side effective subtotal of a version: the supplied decimal value if
one parses, otherwise the exact decimal sum of the computed line totals. -/
def specSubtotalQ (v : Version) : ℚ :=
  match toDecimal v.subtotal with
  | some q => q
  | none => sum_totals (v.items.map specLineTotal)

/-! ## Prefilter (`app/extract/prefilter.py`)

Python `str` is modelled as `List Char` here; `f"{subject}\n{body_text or ''}"`
is `subject ++ '\n' :: body`, `.lower()` maps `Char.toLower`, and the `in`
operator is contiguous-sublist membership. -/

/-- The fixed keyword list of `likely_contains_quote`. -/
def keywords : List (List Char) :=
  ["quote".toList, "quotation".toList, "proposal".toList, "estimate".toList,
   "pricing".toList, "proforma".toList, "invoice".toList]

/-- Python `.lower()` on a string modelled as a char list. -/
def pyLower (l : List Char) : List Char := l.map Char.toLower

/-- Python's `needle in hay` for strings: `needle` occurs as a contiguous
segment of `hay`. -/
def occursIn (needle : List Char) : List Char → Bool
  | [] => needle.isEmpty
  | c :: t => needle.isPrefixOf (c :: t) || occursIn needle t

/-- `likely_contains_quote` from `app/extract/prefilter.py`:
`text = f"{subject}\n{body_text or ''}".lower()`;
`return any(k in text for k in keywords)`. -/
def likely_contains_quote (subject : List Char) (body_text : Option (List Char)) : Bool :=
  let text := pyLower (subject ++ '\n' :: body_text.getD [])
  keywords.any (fun k => occursIn k text)

/-- The prefilter predicate as the claim words it: some keyword occurs as a
substring of the case-insensitive concatenation of subject and body (no
separator). -/
def specShouldProcess (subject body : List Char) : Bool :=
  keywords.any (fun k => occursIn k (pyLower (subject ++ body)))


/-! ## Persistence layer (`app/db/crud/vendors.py`, `app/db/crud/quotes.py`)

Tables are lists of rows with surrogate-id fields; `nextXId` counters model
autoincrement primary keys.  `one_or_none` is modelled exactly: zero matches
give `none`, one match gives `some`, several raise `MultipleResultsFound`. -/

/-- A row of the `vendors` table. -/
structure VendorRow where
  id : Nat
  name : Option String
  domain : Option String
deriving DecidableEq, Repr

/-- A row of the `quotes` table. -/
structure QuoteRow where
  id : Nat
  thread_id : Option Nat
  vendor_id : Option Nat
  anchor_email_id : Option Nat
  status : Option String
deriving DecidableEq, Repr

/-- What `process_email` stores in the `valid_till` column: the parsed date
(`date.fromisoformat` day value), SQL `NULL`, or a non-string value passed
through raw. -/
inductive VTStored where
  | vtnone
  | vtdate (d : Nat)
  | vtraw (truthy : Bool)
deriving DecidableEq, Repr

/-- A row of the `quote_versions` table.  `extracted_json` retains the whole
(normalized) version dict. -/
structure VersionRow where
  id : Nat
  quote_id : Nat
  source_email_id : Nat
  version_label : Option String
  currency : String
  subtotal : Option JVal
  tax : Option JVal
  shipping : Option JVal
  total : JVal
  valid_till : VTStored
  terms : Option String
  extracted_json : Version
deriving DecidableEq, Repr

/-- A row of the `quote_items` table. -/
structure ItemRow where
  id : Nat
  quote_version_id : Nat
  sku : Option String
  description : Option String
  quantity : Option JVal
  unit_price : Option JVal
  discount : Option JVal
  line_total : Option JVal
deriving DecidableEq, Repr

/-- The mutable store touched by the pipeline. -/
structure DB where
  vendors : List VendorRow
  quotes : List QuoteRow
  versions : List VersionRow
  items : List ItemRow
  nextVendorId : Nat
  nextQuoteId : Nat
  nextVersionId : Nat
  nextItemId : Nat
deriving DecidableEq, Repr

/-- The empty store: no rows, autoincrement counters at 1. -/
def dbEmpty : DB := ⟨[], [], [], [], 1, 1, 1, 1⟩

/-- SQLAlchemy `Query.one_or_none`: `none` on zero matches, the unique match,
or `MultipleResultsFound` on several. -/
def one_or_none (p : α → Bool) (l : List α) : Except String (Option α) :=
  match l.filter p with
  | [] => .ok none
  | [a] => .ok (some a)
  | _ => .error "MultipleResultsFound"

/-- In-place ORM mutation of a fetched row, modelled as rewriting the rows
with the same primary key. -/
def updVendors (l : List VendorRow) (i : Nat) (v : VendorRow) : List VendorRow :=
  l.map (fun w => if w.id == i then v else w)

/-- `upsert_vendor` from `app/db/crud/vendors.py`: look up by domain (when
truthy), backfilling a missing name; else look up by name (when truthy),
backfilling a missing domain; else insert a fresh row. -/
def upsert_vendor (db : DB) (name domain : Option String) : Except String (Nat × DB) := do
  let byDomain ← if pyTruthyStr domain
    then one_or_none (fun v => v.domain == domain) db.vendors
    else pure none
  match byDomain with
  | some vendor =>
    let vendor2 := if pyTruthyStr name && !(pyTruthyStr vendor.name)
      then { vendor with name := name } else vendor
    pure (vendor.id, { db with vendors := updVendors db.vendors vendor.id vendor2 })
  | none =>
    let byName ← if pyTruthyStr name
      then one_or_none (fun v => v.name == name) db.vendors
      else pure none
    match byName with
    | some vendor =>
      let vendor2 := if pyTruthyStr domain && !(pyTruthyStr vendor.domain)
        then { vendor with domain := domain } else vendor
      pure (vendor.id, { db with vendors := updVendors db.vendors vendor.id vendor2 })
    | none =>
      pure (db.nextVendorId,
        { db with vendors := db.vendors ++ [⟨db.nextVendorId, name, domain⟩],
                  nextVendorId := db.nextVendorId + 1 })

/-- The natural-key filter of `get_or_create_quote` (SQL equality with `NULL`
semantics rendered by SQLAlchemy as `IS NULL` for literal `None`). -/
def quoteKey (thread_id vendor_id : Option Nat) (q : QuoteRow) : Bool :=
  q.thread_id == thread_id && q.vendor_id == vendor_id

/-- `get_or_create_quote` from `app/db/crud/quotes.py`: look up by
`(thread_id, vendor_id)`; insert (status `"active"`) when absent; backfill an
unset anchor when found. -/
def get_or_create_quote (db : DB) (thread_id vendor_id anchor_email_id : Option Nat) :
    Except String (QuoteRow × DB) := do
  let found ← one_or_none (quoteKey thread_id vendor_id) db.quotes
  match found with
  | none =>
    let quote : QuoteRow := ⟨db.nextQuoteId, thread_id, vendor_id, anchor_email_id, some "active"⟩
    pure (quote, { db with quotes := db.quotes ++ [quote], nextQuoteId := db.nextQuoteId + 1 })
  | some quote =>
    if pyTruthyNat anchor_email_id && quote.anchor_email_id == none then
      let quote2 := { quote with anchor_email_id := anchor_email_id }
      pure (quote2, { db with quotes := db.quotes.map (fun q => if q.id == quote.id then quote2 else q) })
    else
      pure (quote, db)

/-- The natural-key filter of `get_or_create_version`. -/
def versionKey (quote_id source_email_id : Nat) (v : VersionRow) : Bool :=
  v.quote_id == quote_id && v.source_email_id == source_email_id

/-- `get_or_create_version` from `app/db/crud/quotes.py`: look up by
`(quote_id, source_email_id)`; insert when absent; otherwise overwrite every
mutable field with the newly extracted values. -/
def get_or_create_version (db : DB) (quote_id source_email_id : Nat)
    (version_label : Option String) (currency : String)
    (subtotal tax shipping : Option JVal) (total : JVal)
    (valid_till : VTStored) (terms : Option String) (extracted_json : Version) :
    Except String (VersionRow × DB) := do
  let found ← one_or_none (versionKey quote_id source_email_id) db.versions
  match found with
  | none =>
    let v : VersionRow := ⟨db.nextVersionId, quote_id, source_email_id, version_label,
      currency, subtotal, tax, shipping, total, valid_till, terms, extracted_json⟩
    pure (v, { db with versions := db.versions ++ [v], nextVersionId := db.nextVersionId + 1 })
  | some v0 =>
    let v : VersionRow := ⟨v0.id, v0.quote_id, v0.source_email_id, version_label,
      currency, subtotal, tax, shipping, total, valid_till, terms, extracted_json⟩
    pure (v, { db with versions := db.versions.map (fun w => if w.id == v0.id then v else w) })

/-- An inserted item row (before id assignment) for one item dict of a
version, as built in `replace_items`. -/
def mkItemRow (version_id : Nat) (iid : Nat) (it : Item) : ItemRow :=
  ⟨iid, version_id, it.sku, it.description, it.quantity, it.unit_price, it.discount, it.line_total⟩

/-- Assign consecutive autoincrement ids to the inserted item rows. -/
def mkItemRows (version_id : Nat) (iid : Nat) : List Item → List ItemRow
  | [] => []
  | it :: rest => mkItemRow version_id iid it :: mkItemRows version_id (iid + 1) rest

/-- `replace_items` from `app/db/crud/quotes.py`: delete every item of the
version, then insert the new set. -/
def replace_items (db : DB) (version_id : Nat) (items : List Item) : DB :=
  { db with items := db.items.filter (fun it => !(it.quote_version_id == version_id))
              ++ mkItemRows version_id db.nextItemId items,
            nextItemId := db.nextItemId + items.length }

/-! ## Orchestrator (`app/extract/pipeline.py`)

`process_email` is modelled over the stored emails (subject, thread and
bodies; the remaining header fields and the attachment texts feed only the
LLM prompt) together with the extraction the adapter returns for this
message — the claims fix "an identical model response", so the adapter
outcome is a parameter.  The final `db.commit()` is atomicity: on any raised
error no state is returned. -/

/-- A stored `email_bodies` row. -/
structure EmailBodyRec where
  mime_type : Option String
  body_text : Option String
  body_html : Option String
deriving DecidableEq, Repr

/-- A stored `emails` row with its bodies (`get_email_with_parts` looks it up
by unique primary key). -/
structure EmailRec where
  id : Nat
  thread_id : Option Nat
  subject : Option String
  bodies : List EmailBodyRec
deriving DecidableEq, Repr

/-- The value returned by `process_email`. -/
structure PEResult where
  email_id : Nat
  processed : Bool
  reason : Option String
  versions : Option Nat
deriving DecidableEq, Repr

/-- The subject `process_email` works with: `email.subject or ""`. -/
def emailSubject (m : EmailRec) : String := pyOrStr m.subject ""

/-- The body `process_email` works with: the first truthy `text/plain` body,
else the first truthy `text/html` body, else the empty string. -/
def emailBody (m : EmailRec) : String :=
  let plain := (m.bodies.find?
    (fun b => b.mime_type == some "text/plain" && pyTruthyStr b.body_text)).bind (·.body_text)
  let html := (m.bodies.find?
    (fun b => b.mime_type == some "text/html" && pyTruthyStr b.body_html)).bind (·.body_html)
  pyOrStr plain (pyOrStr html "")

/-- The prefilter gate of `process_email`:
`likely_contains_quote(subject, body_text)`. -/
def prefilterPass (m : EmailRec) : Bool :=
  likely_contains_quote (emailSubject m).toList (some (emailBody m).toList)

/-- The `valid_till` handling in the version loop of `process_email`: parse
ISO strings (unparseable → `None`), pass non-strings through raw. -/
def parseValidTill : Option VTill → VTStored
  | some (.vstr _ (some d)) => .vtdate d
  | some (.vstr _ none) => .vtnone
  | some (.vother t) => .vtraw t
  | none => .vtnone

/-- One iteration of the version loop in `process_email`:
`get_or_create_version(...)` followed by `replace_items(...)`. -/
def persistVersion (db : DB) (quote_id email_id : Nat) (ver : Version) :
    Except String DB := do
  let (v, db2) ← get_or_create_version db quote_id email_id ver.version_label
    (pyOrStr ver.currency "") ver.subtotal ver.tax ver.shipping
    (pyOrJ ver.total (.num 0)) (parseValidTill ver.valid_till) ver.terms ver
  pure (replace_items db2 v.id ver.items)

/-- The version loop of `process_email` with its `created_versions` counter. -/
def persistVersions (quote_id email_id : Nat) :
    List Version → DB → Nat → Except String (DB × Nat)
  | [], db, n => pure (db, n)
  | ver :: rest, db, n => do
    let db2 ← persistVersion db quote_id email_id ver
    persistVersions quote_id email_id rest db2 (n + 1)

/-- `process_email` from `app/extract/pipeline.py`, for a fixed adapter
response `extraction`: load the email, pick the plain-text body (else HTML,
else empty), gate on the prefilter, normalize the extraction, upsert the
vendor, get-or-create the `(thread, vendor)` quote, then persist each version
and its items; commit and report the number of versions written. -/
def process_email (emails : List EmailRec) (extraction : Extraction)
    (db : DB) (email_id : Nat) : Except String (PEResult × DB) := do
  match emails.find? (fun e => e.id == email_id) with
  | none => pure (⟨email_id, false, some "email-not-found", none⟩, db)
  | some email =>
    if !(prefilterPass email) then
      pure (⟨email_id, false, some "prefilter-skip", none⟩, db)
    else do
      let ext := normalize_extraction extraction
      let (vendor_id, db1) ← upsert_vendor db ext.vendor_name ext.vendor_domain
      let (quote, db2) ← get_or_create_quote db1 email.thread_id (some vendor_id) (some email_id)
      let (db3, n) ← persistVersions quote.id email_id ext.versions db2 0
      pure (⟨email_id, true, none, some n⟩, db3)

/-! ## Document text extractor (`_extract_text_from_attachment`)

The attachment is modelled by its path suffix together with the outcomes of
the external decoders: `utf8Text` is what `Path.read_text(encoding="utf-8")`
would return (`none` when decoding raises), and `pdfText` / `docxText` /
`xlsxText` are the results of the pdfminer / python-docx / openpyxl branches
(`none` when the library raises). -/

/-- An attachment as seen by `_extract_text_from_attachment`. -/
structure AttachmentDoc where
  suffix : String
  utf8Text : Option String
  pdfText : Option String
  docxText : Option String
  xlsxText : Option String
deriving DecidableEq, Repr

/-- `_read_text_safe` from `app/extract/pipeline.py`: the UTF-8 decode of the
payload, `none` when it raises. -/
def read_text_safe (a : AttachmentDoc) : Option String := a.utf8Text

/-- Python `str.lower()` on a `String` (character-wise, as in the prefilter
model). -/
def strLower (s : String) : String := ⟨pyLower s.data⟩

/-- `_extract_text_from_attachment` from `app/extract/pipeline.py`: dispatch
on the lower-cased path suffix; any suffix outside the four handled branches
falls through to `return None`. -/
def extract_text_from_attachment (a : AttachmentDoc) : Option String :=
  let suffix := strLower a.suffix
  if suffix = ".txt" ∨ suffix = "" then read_text_safe a
  else if suffix = ".pdf" then a.pdfText
  else if suffix = ".docx" then a.docxText
  else if suffix = ".xlsx" ∨ suffix = ".xlsm" then a.xlsxText
  else none

/-! ## Structured extraction adapter (`app/extract/llm.py`)

`extract_quote_json` is modelled over (a) whether `OPENAI_API_KEY` is
configured and (b) the outcome of the model call: `none` stands for every
failure caught inside the `try` block (call-level failure of both APIs, empty
content, `json.loads` failure), `some j` for a response whose text parsed to
the JSON value `j`.  Schema validation (`Draft202012Validator` over
`STRICT_JSON_SCHEMA`) and the best-effort `setdefault` patching run *outside*
that `try` block, exactly as in the source. -/

/-- A parsed JSON value (`json.loads` output: objects have unique keys). -/
inductive Json where
  | null
  | bool (b : Bool)
  | num (q : ℚ)
  | str (s : String)
  | arr (xs : List Json)
  | obj (fields : List (String × Json))
deriving BEq, Repr

/-- Dict lookup on a parsed JSON object. -/
def lookupField (fields : List (String × Json)) (k : String) : Option Json :=
  (fields.find? (fun p => p.1 == k)).map (·.2)

/-- Schema `{"type": "string"}`. -/
def vStr : Json → Bool
  | .str _ => true
  | _ => false

/-- Schema `{"type": "number"}`. -/
def vNum : Json → Bool
  | .num _ => true
  | _ => false

/-- Schema `{"type": ["string", "null"]}`. -/
def vStrNull : Json → Bool
  | .str _ => true
  | .null => true
  | _ => false

/-- Schema `{"type": ["number", "null"]}`. -/
def vNumNull : Json → Bool
  | .num _ => true
  | .null => true
  | _ => false

/-- An optional property: validated when present, vacuous when absent. -/
def optField (fields : List (String × Json)) (k : String) (p : Json → Bool) : Bool :=
  match lookupField fields k with
  | some v => p v
  | none => true

/-- A required property: must be present and validate. -/
def reqField (fields : List (String × Json)) (k : String) (p : Json → Bool) : Bool :=
  match lookupField fields k with
  | some v => p v
  | none => false

/-- The `vendor` subschema of `STRICT_JSON_SCHEMA`: an object with required
string `name` and optional string `domain`. -/
def validVendor : Json → Bool
  | .obj fs => reqField fs "name" vStr && optField fs "domain" vStr
  | _ => false

/-- The item subschema: required `description` (string), `quantity` (number),
`unit_price` (number); optional `sku`, `discount`, `line_total`. -/
def validItem : Json → Bool
  | .obj fs => reqField fs "description" vStr && reqField fs "quantity" vNum
      && reqField fs "unit_price" vNum && optField fs "sku" vStrNull
      && optField fs "discount" vNumNull && optField fs "line_total" vNumNull
  | _ => false

/-- The version subschema: required `version_label`, `currency` (strings),
`items` (array of valid items), `total` (number); the rest optional.  The
`"format": "date"` annotation on `valid_till` is not asserted in
Draft 2020-12. -/
def validVersion : Json → Bool
  | .obj fs => reqField fs "version_label" vStr && reqField fs "currency" vStr
      && reqField fs "total" vNum
      && (match lookupField fs "items" with
          | some (.arr xs) => xs.all validItem
          | some _ => false
          | none => false)
      && optField fs "valid_till" vStrNull && optField fs "subtotal" vNumNull
      && optField fs "tax" vNumNull && optField fs "shipping" vNumNull
      && optField fs "terms" vStrNull
  | _ => false

/-- `STRICT_JSON_SCHEMA` from `app/extract/prompts.py` as a checker: a
top-level object with required `vendor` and `versions` keys. -/
def schemaValid : Json → Bool
  | .obj fs => (match lookupField fs "vendor" with
      | some v => validVendor v
      | none => false)
      && (match lookupField fs "versions" with
          | some (.arr vs) => vs.all validVersion
          | some _ => false
          | none => false)
  | _ => false

/-- The canonical empty extraction `{"vendor": {"name": null}, "versions": []}`. -/
def canonicalEmpty : Json :=
  .obj [("vendor", .obj [("name", Json.null)]), ("versions", .arr [])]

/-- `dict.setdefault(k, v)` restricted to its effect on the dict. -/
def setDefault (fields : List (String × Json)) (k : String) (v : Json) :
    List (String × Json) :=
  match lookupField fields k with
  | some _ => fields
  | none => fields ++ [(k, v)]

/-- The best-effort patch on validation failure:
`data.setdefault("vendor", {}).setdefault("name", None)` then
`data.setdefault("versions", [])`.  When the `vendor` value is not a dict the
inner `setdefault` raises `AttributeError`. -/
def patchData (fields : List (String × Json)) : Except String Json :=
  let fields1 := setDefault fields "vendor" (.obj [])
  match lookupField fields1 "vendor" with
  | some (.obj vf) =>
    let fields2 := fields1.map
      (fun p => if p.1 == "vendor" then (p.1, Json.obj (setDefault vf "name" .null)) else p)
    .ok (.obj (setDefault fields2 "versions" (.arr [])))
  | some _ => .error "AttributeError"
  | none => .error "unreachable"

/-- `extract_quote_json` from `app/extract/llm.py`: no API key → canonical
empty result; otherwise take the parsed model response (`none` = any failure
caught inside the `try`, replaced by the canonical empty result), validate
against the schema, and on validation failure run the `setdefault` patch —
which raises when the parsed value is not a dict (`data.setdefault` on a
list/number/string) or its `vendor` value is not a dict. -/
def extract_quote_json (hasApiKey : Bool) (response : Option Json) : Except String Json :=
  if !hasApiKey then .ok canonicalEmpty
  else
    let data := match response with
      | some j => j
      | none => canonicalEmpty
    if schemaValid data then .ok data
    else match data with
      | .obj fs => patchData fs
      | _ => .error "AttributeError"

/-! ## Row-content projections and computed rows -/

/-- The content of an item row with the surrogate id erased (`replace_items`
reinserts rows, so ids change across reprocessing while content does not). -/
def itemData (r : ItemRow) :
    Nat × Option String × Option String × Option JVal × Option JVal × Option JVal × Option JVal :=
  (r.quote_version_id, r.sku, r.description, r.quantity, r.unit_price, r.discount, r.line_total)

/-- The id-erased content `replace_items` inserts for one item dict. -/
def itemDataOf (vid : Nat) (it : Item) :
    Nat × Option String × Option String × Option JVal × Option JVal × Option JVal × Option JVal :=
  (vid, it.sku, it.description, it.quantity, it.unit_price, it.discount, it.line_total)

/-- The version row `process_email` writes for a (normalized) version dict
`ver`, whether freshly inserted or overwritten in place. -/
def computedRow (quote_id email_id vid : Nat) (ver : Version) : VersionRow :=
  ⟨vid, quote_id, email_id, ver.version_label, pyOrStr ver.currency "",
    ver.subtotal, ver.tax, ver.shipping, pyOrJ ver.total (.num 0),
    parseValidTill ver.valid_till, ver.terms, ver⟩

/-! ## Concrete instances used by counterexamples and witnesses -/

/-- A stored email that passes the prefilter: subject "quote", no bodies. -/
def mQuote : EmailRec := ⟨1, some 1, some "quote", []⟩

/-- The canonical empty extraction as a typed `Extraction`. -/
def extNullVendor : Extraction := ⟨none, none, []⟩

/-- An extraction naming its vendor but containing zero versions. -/
def extNoVersions : Extraction := ⟨some "Acme", some "acme.com", []⟩

/-- The item of the happy-path scenario. -/
def itServiceA : Item :=
  { description := some "Service A"
    quantity := some (JVal.num 2)
    unit_price := some (JVal.num 10) }

/-- The version of the happy-path scenario. -/
def verServiceA : Version :=
  { version_label := some "v1"
    currency := some "USD"
    items := [itServiceA]
    tax := some (JVal.num 0)
    shipping := some (JVal.num 0)
    total := some (JVal.num 20) }

/-- A one-version extraction with an identified vendor. -/
def extOneVersion : Extraction := ⟨some "Vendor Inc.", some "example.com", [verServiceA]⟩

/-- A second, different version for the multi-version scenario. -/
def verB : Version :=
  { version_label := some "v2"
    currency := some "EUR"
    items := [{ description := some "B", quantity := some (JVal.num 1),
                unit_price := some (JVal.num 5) }]
    total := some (JVal.num 5) }

/-- A two-version extraction from one message. -/
def extTwoVersions : Extraction := ⟨some "Vendor Inc.", some "example.com", [verServiceA, verB]⟩

/-- An item that explicitly supplies a (wrong) `line_total`. -/
def itSupplied : Item :=
  { description := some "A"
    quantity := some (JVal.num 2)
    unit_price := some (JVal.num 10)
    line_total := some (JVal.num 100) }

/-- An extraction whose only item supplies its own `line_total`. -/
def extSupplied : Extraction :=
  ⟨some "ACME", none, [{ items := [itSupplied], total := some (JVal.num 100) }]⟩

/-- The normalization-arithmetic example of the claim: items
`[{qty 2, price 10}, {qty 1, price 5, discount 1}]`, tax 2, shipping 3,
no subtotal, no total. -/
def verArith : Version :=
  { version_label := some "v1"
    currency := some "USD"
    items := [{ description := some "A", quantity := some (JVal.num 2),
                unit_price := some (JVal.num 10) },
              { description := some "B", quantity := some (JVal.num 1),
                unit_price := some (JVal.num 5), discount := some (JVal.num 1) }]
    tax := some (JVal.num 2)
    shipping := some (JVal.num 3) }

/-- The extraction holding `verArith`. -/
def extArith : Extraction := ⟨some "ACME", none, [verArith]⟩

/-- A `.csv` attachment whose payload decodes fine as UTF-8. -/
def attCsv : AttachmentDoc := ⟨".csv", some "a,b", none, none, none⟩

/-- A version supplying nothing at all (every field absent). -/
def verEmpty : Version := {}

/-- A dyadic rational: exactly the values an IEEE-754 binary floating-point
number (any width) can take, up to range.  Python's `float(...)` always
returns such a value. -/
def IsDyadic (q : ℚ) : Prop := ∃ (m : ℤ) (k : ℕ), q = m / 2 ^ k

/-! # Theorems -/

/-! ## Prefilter lemmas -/

theorem occursIn_iff (needle : List Char) (hay : List Char) :
    occursIn needle hay = true ↔ needle <:+: hay := by
  induction hay with
  | nil => simp [occursIn, List.isEmpty_iff, List.infix_nil]
  | cons c t ih =>
    simp [occursIn, ih, List.infix_cons_iff, List.isPrefixOf_iff_prefix]

theorem prefix_before_sep {c : Char} {y : List Char} :
    ∀ {x l : List Char}, c ∉ l → l <+: x ++ c :: y → l <+: x := by
  intro x
  induction x with
  | nil =>
    intro l hc h
    cases l with
    | nil => exact List.nil_prefix
    | cons a as =>
      rw [List.nil_append, List.cons_prefix_cons] at h
      obtain ⟨rfl, -⟩ := h
      exact absurd (List.mem_cons_self _ _) hc
  | cons b x ih =>
    intro l hc h
    cases l with
    | nil => exact List.nil_prefix
    | cons a as =>
      rw [List.cons_append, List.cons_prefix_cons] at h
      refine List.cons_prefix_cons.mpr ⟨h.1, ih ?_ h.2⟩
      exact fun hm => hc (List.mem_cons_of_mem a hm)

theorem infix_split_sep {c : Char} {y : List Char} :
    ∀ {x l : List Char}, c ∉ l → (l <:+: x ++ c :: y ↔ l <:+: x ∨ l <:+: y) := by
  intro x
  induction x with
  | nil =>
    intro l hc
    rw [List.nil_append, List.infix_cons_iff]
    constructor
    · rintro (hp | hi)
      · cases l with
        | nil => exact Or.inl (List.infix_nil.mpr rfl)
        | cons a as =>
          rw [List.cons_prefix_cons] at hp
          obtain ⟨rfl, -⟩ := hp
          exact absurd (List.mem_cons_self _ _) hc
      · exact Or.inr hi
    · rintro (hx | hy)
      · rw [List.infix_nil] at hx
        subst hx
        exact Or.inl List.nil_prefix
      · exact Or.inr hy
  | cons b x ih =>
    intro l hc
    rw [List.cons_append, List.infix_cons_iff, List.infix_cons_iff, ih hc]
    constructor
    · rintro (hp | (hx | hy))
      · cases l with
        | nil => exact Or.inl (Or.inl List.nil_prefix)
        | cons a as =>
          rw [List.cons_prefix_cons] at hp
          have h2 := prefix_before_sep (fun hm => hc (List.mem_cons_of_mem a hm)) hp.2
          exact Or.inl (Or.inl (List.cons_prefix_cons.mpr ⟨hp.1, h2⟩))
      · exact Or.inl (Or.inr hx)
      · exact Or.inr hy
    · rintro ((hp | hx) | hy)
      · exact Or.inl (hp.trans (List.cons_prefix_cons.mpr ⟨rfl, List.prefix_append x (c :: y)⟩))
      · exact Or.inr (Or.inl hx)
      · exact Or.inr (Or.inr hy)

theorem pyLower_sep (s b : List Char) :
    pyLower (s ++ '\n' :: b) = pyLower s ++ '\n' :: pyLower b := by
  simp [pyLower]

theorem keywords_no_newline : ∀ k ∈ keywords, ('\n' : Char) ∉ k := by decide

theorem likely_iff (s : List Char) (b : Option (List Char)) :
    likely_contains_quote s b = true ↔
      ∃ k ∈ keywords,
        (occursIn k (pyLower s) = true ∨ occursIn k (pyLower (b.getD [])) = true) := by
  unfold likely_contains_quote
  rw [List.any_eq_true]
  constructor
  · rintro ⟨k, hk, ho⟩
    refine ⟨k, hk, ?_⟩
    rw [occursIn_iff, pyLower_sep, infix_split_sep (keywords_no_newline k hk)] at ho
    rcases ho with h | h
    · exact Or.inl ((occursIn_iff _ _).mpr h)
    · exact Or.inr ((occursIn_iff _ _).mpr h)
  · rintro ⟨k, hk, ho⟩
    refine ⟨k, hk, ?_⟩
    rw [occursIn_iff, pyLower_sep, infix_split_sep (keywords_no_newline k hk)]
    rcases ho with h | h
    · exact Or.inl ((occursIn_iff _ _).mp h)
    · exact Or.inr ((occursIn_iff _ _).mp h)

/-! ## C9 — prefilter correctness -/

/-- C9 (counterexample): the claim's iff fails on subject `"quo"`, body
`"te"`: the keyword `"quote"` is a substring of the concatenation of subject
and body, yet `likely_contains_quote` returns `false`, because the code
joins subject and body with a newline (`f"{subject}\n{body}"`). -/
theorem C9_counterexample :
    specShouldProcess "quo".toList "te".toList = true ∧
    likely_contains_quote "quo".toList (some "te".toList) = false := by decide

/-- C9 (amended): `likely_contains_quote` returns true iff some member of the
fixed keyword set occurs as a substring of the lower-cased subject or of the
lower-cased body (equivalently, of the lower-cased `subject + "\n" + body`;
a keyword spanning the subject–body boundary is not detected); the three
concrete examples of the claim hold. -/
theorem C9_theorem :
    (∀ (s : List Char) (b : Option (List Char)),
      likely_contains_quote s b = true ↔
        ∃ k ∈ keywords,
          (occursIn k (pyLower s) = true ∨ occursIn k (pyLower (b.getD [])) = true)) ∧
    likely_contains_quote "Request for QUOTE".toList (some "".toList) = true ∧
    likely_contains_quote "Meeting notes".toList (some "Pricing table attached".toList) = true ∧
    likely_contains_quote "FYI".toList (some "hello world".toList) = false :=
  ⟨likely_iff, by decide, by decide, by decide⟩

/-! ## C2 — vendor merge -/

/-- C2 (counterexample): upserting `(name="Acme", domain=null)`,
`(name=null, domain="acme.com")`, `(name="Acme", domain="acme.com")` into an
empty vendor table leaves **two** vendor records, not one: the second upsert
finds nothing by domain, skips the name lookup (name is null), and inserts a
fresh row. -/
theorem C2_counterexample :
    (do
      let r1 ← upsert_vendor dbEmpty (some "Acme") none
      let r2 ← upsert_vendor r1.2 none (some "acme.com")
      let r3 ← upsert_vendor r2.2 (some "Acme") (some "acme.com")
      pure r3.2.vendors.length : Except String Nat) = .ok 2 := by rfl

/-- C2 (amended): the three upserts yield exactly two vendor records — the
name-only record `(Acme, null)` untouched, and a second record holding both
`name="Acme"` (backfilled by the third upsert) and `domain="acme.com"`. -/
theorem C2_theorem :
    (do
      let r1 ← upsert_vendor dbEmpty (some "Acme") none
      let r2 ← upsert_vendor r1.2 none (some "acme.com")
      let r3 ← upsert_vendor r2.2 (some "Acme") (some "acme.com")
      pure r3.2.vendors : Except String (List VendorRow))
      = .ok [⟨1, some "Acme", none⟩, ⟨2, some "Acme", some "acme.com"⟩] := by rfl

/-! ## Normalization lemmas -/

theorem specToQ_of_toDecimal_none {x : Option JVal} (h : toDecimal x = none) :
    specToQ x = 0 := by
  rcases x with _ | j
  · rfl
  · rcases j with q | t
    · simp [toDecimal] at h
    · rfl

theorem specToQ_of_toDecimal_some {x : Option JVal} {q : ℚ} (h : toDecimal x = some q) :
    specToQ x = q := by
  rcases x with _ | j
  · simp [toDecimal] at h
  · rcases j with p | t
    · simp [toDecimal] at h
      simp [specToQ, h]
    · simp [toDecimal] at h

theorem pyOrDec_toDecimal (x : Option JVal) : pyOrDec (toDecimal x) 0 = specToQ x := by
  rcases x with _ | j
  · rfl
  · rcases j with q | t
    · by_cases hq : q = 0 <;> simp [toDecimal, pyOrDec, specToQ, hq]
    · rfl

theorem itemLineTotalQ_eq_spec (it : Item) : itemLineTotalQ it = specLineTotal it := by
  unfold itemLineTotalQ specLineTotal compute_line_total
  rw [pyOrDec_toDecimal, pyOrDec_toDecimal]
  rcases hd : toDecimal it.discount with _ | d
  · rw [specToQ_of_toDecimal_none hd]
    ring
  · rw [specToQ_of_toDecimal_some hd]
    by_cases hd0 : d = 0
    · simp [hd0]
    · simp [hd0]

/-! ## C3 — supplied values are (not all) preserved -/

/-- C3 (counterexample): the extractor supplied `line_total = 100` for an
item with quantity 2 and unit price 10; `normalize_extraction` overwrites it
with the recomputed value 20 — a supplied `line_total` is **not** present
unchanged in the output. -/
theorem C3_counterexample :
    (normalize_extraction extSupplied).versions.map (fun v => v.items.map Item.line_total)
      = [[some (JVal.num 20)]] ∧
    itSupplied.line_total = some (JVal.num 100) := by
  constructor
  · norm_num [normalize_extraction, extSupplied, normVersion, normItem,
      itemLineTotalQ, itSupplied, compute_line_total, toDecimal, pyOrDec]
  · rfl

/-- C3 (amended): normalization never overwrites a supplied numeric
`subtotal` or `total` — both are present unchanged in the output version —
but every item's `line_total` is unconditionally recomputed from quantity,
unit price and discount, discarding any supplied value. -/
theorem C3_theorem : ∀ (d : Extraction) (i : Nat) (v : Version),
    d.versions[i]? = some v →
    ∃ v2, (normalize_extraction d).versions[i]? = some v2 ∧
      (∀ q : ℚ, v.subtotal = some (JVal.num q) → v2.subtotal = some (JVal.num q)) ∧
      (∀ q : ℚ, v.total = some (JVal.num q) → v2.total = some (JVal.num q)) ∧
      v2.items.map Item.line_total
        = v.items.map (fun it => some (JVal.num (itemLineTotalQ it))) := by
  intro d i v h
  refine ⟨normVersion v, ?_, ?_, ?_, ?_⟩
  · simp [normalize_extraction, List.getElem?_map, h]
  · intro q hq
    simp [normVersion, hq, toDecimal]
  · intro q hq
    rcases hsd : toDecimal v.subtotal with _ | p <;>
      simp [normVersion, hq, hsd, toDecimal]
  · simp [normVersion, normItem, List.map_map, Function.comp]

/-- C3 (witness): the amended theorem applied to the concrete supplied-value
extraction: subtotal and total pass through, the supplied line total 100 is
replaced by the recomputed 20. -/
theorem C3_witness :
    ∃ v2, (normalize_extraction extSupplied).versions[0]? = some v2 ∧
      (∀ q : ℚ, ({ items := [itSupplied], total := some (JVal.num 100) } : Version).subtotal
          = some (JVal.num q) → v2.subtotal = some (JVal.num q)) ∧
      (∀ q : ℚ, ({ items := [itSupplied], total := some (JVal.num 100) } : Version).total
          = some (JVal.num q) → v2.total = some (JVal.num q)) ∧
      v2.items.map Item.line_total
        = ({ items := [itSupplied], total := some (JVal.num 100) } : Version).items.map
            (fun it => some (JVal.num (itemLineTotalQ it))) :=
  C3_theorem extSupplied 0 { items := [itSupplied], total := some (JVal.num 100) } rfl

theorem itemLineTotalQ_funext : itemLineTotalQ = specLineTotal :=
  funext itemLineTotalQ_eq_spec

theorem normVersion_subtotal_none (v : Version) (hs : toDecimal v.subtotal = none) :
    (normVersion v).subtotal
      = some (JVal.num (sum_totals (v.items.map specLineTotal))) := by
  unfold normVersion
  simp only [hs, itemLineTotalQ_funext]

theorem normVersion_total_none (v : Version) (ht : toDecimal v.total = none) :
    (normVersion v).total
      = some (JVal.num (specSubtotalQ v + specToQ v.tax + specToQ v.shipping)) := by
  unfold normVersion
  rcases hsd : toDecimal v.subtotal with _ | q
  · simp only [hsd, ht]
    rw [pyOrDec_toDecimal, pyOrDec_toDecimal]
    simp only [specSubtotalQ, hsd, itemLineTotalQ_funext]
  · simp only [hsd, ht]
    rw [pyOrDec_toDecimal, pyOrDec_toDecimal]
    simp only [specSubtotalQ, hsd]

/-! ## C5 — normalization arithmetic -/

/-- C5: for every version of every extraction, normalization sets each item's
`line_total` to `quantity * unit_price - discount` (absent/unparseable
quantity and price read as zero, absent discount as no deduction); an absent
`subtotal` is derived as the exact decimal sum of the computed line totals,
and an absent `total` as `subtotal + tax + shipping` with missing tax and
shipping treated as zero. -/
theorem C5_theorem : ∀ (d : Extraction) (i : Nat) (v : Version),
    d.versions[i]? = some v →
    ∃ v2, (normalize_extraction d).versions[i]? = some v2 ∧
      v2.items.map Item.line_total
        = v.items.map (fun it => some (JVal.num (specLineTotal it))) ∧
      (v.subtotal = none →
        v2.subtotal = some (JVal.num (sum_totals (v.items.map specLineTotal)))) ∧
      (v.total = none →
        v2.total = some (JVal.num (specSubtotalQ v + specToQ v.tax + specToQ v.shipping))) := by
  intro d i v h
  refine ⟨normVersion v, ?_, ?_, ?_, ?_⟩
  · simp [normalize_extraction, List.getElem?_map, h]
  · simp [normVersion, normItem, List.map_map, Function.comp, itemLineTotalQ_eq_spec]
  · intro hs
    exact normVersion_subtotal_none v (by rw [hs]; rfl)
  · intro ht
    exact normVersion_total_none v (by rw [ht]; rfl)

/-- C5 (witness): the claim's concrete instance — items
`[{qty 2, price 10}, {qty 1, price 5, discount 1}]`, tax 2, shipping 3 —
via the theorem, plus the evaluated line totals `[20, 4]`, subtotal `24` and
total `29`. -/
theorem C5_witness :
    (∃ v2, (normalize_extraction extArith).versions[0]? = some v2 ∧
      v2.items.map Item.line_total
        = verArith.items.map (fun it => some (JVal.num (specLineTotal it))) ∧
      (verArith.subtotal = none →
        v2.subtotal = some (JVal.num (sum_totals (verArith.items.map specLineTotal)))) ∧
      (verArith.total = none →
        v2.total = some (JVal.num (specSubtotalQ verArith + specToQ verArith.tax
          + specToQ verArith.shipping)))) ∧
    (normalize_extraction extArith).versions.map
      (fun v => v.items.map Item.line_total) = [[some (JVal.num 20), some (JVal.num 4)]] ∧
    (normalize_extraction extArith).versions.map Version.subtotal = [some (JVal.num 24)] ∧
    (normalize_extraction extArith).versions.map Version.total = [some (JVal.num 29)] := by
  refine ⟨C5_theorem extArith 0 verArith rfl, ?_, ?_, ?_⟩ <;>
    norm_num [normalize_extraction, extArith, normVersion, normItem, itemLineTotalQ,
      verArith, compute_line_total, toDecimal, pyOrDec, sum_totals]

/-! ## C6 — exact decimal arithmetic vs. stored floats -/

/-- C6 (counterexample): for an item with quantity 1 and unit price 0.1 the
exact decimal line total is `1/10`, which is **not** a dyadic rational, so no
binary floating-point value equals it.  `normalize_extraction` stores
`float(lt)` (a dyadic rational) into the item and the persisted rows, so the
stored value necessarily differs from the exact decimal total — binary
floating-point representation error does reach the stored totals. -/
theorem C6_counterexample :
    compute_line_total 1 (1/10) none = 1/10 ∧ ¬ IsDyadic ((1 : ℚ)/10) := by
  constructor
  · simp [compute_line_total]
  · rintro ⟨m, k, hm⟩
    have h2 : ((2 : ℚ)) ^ k ≠ 0 := by positivity
    rw [div_eq_div_iff (by norm_num) h2] at hm
    have hm2 : ((2 : ℚ)) ^ k = (m : ℚ) * 10 := by linarith
    have hZ : (2 : ℤ) ^ k = m * 10 := by exact_mod_cast hm2
    have h5 : (5 : ℤ) ∣ 2 ^ k := ⟨m * 2, by linarith⟩
    have hp : Prime (5 : ℤ) := by norm_num
    have h52 := hp.dvd_of_dvd_pow h5
    norm_num at h52

/-- C6 (amended): all monetary derivations of the normalization engine are
exact decimal arithmetic — in particular the derived subtotal is the exact
decimal `sum_totals` of the line totals and is identical for every order of
summation — but the results are cast to binary floating point (`float(...)`)
when written back, so non-dyadic values are not stored exactly. -/
theorem C6_theorem :
    (∀ (l l2 : List ℚ), l.Perm l2 → sum_totals l = sum_totals l2) ∧
    (∀ v : Version, v.subtotal = none →
      (normVersion v).subtotal
        = some (JVal.num (sum_totals (v.items.map itemLineTotalQ)))) := by
  constructor
  · intro l l2 hp
    have h1 : sum_totals l = l.sum := (List.sum_eq_foldl).symm
    have h2 : sum_totals l2 = l2.sum := (List.sum_eq_foldl).symm
    rw [h1, h2, hp.sum_eq]
  · intro v hs
    have := normVersion_subtotal_none v (by rw [hs]; rfl)
    rw [this, itemLineTotalQ_funext]

/-- C6 (witness): the permutation invariance at a concrete reordering, and
the derived subtotal of the all-absent version. -/
theorem C6_witness :
    sum_totals [(1 : ℚ), 2, 3] = sum_totals [3, 2, 1] ∧
    (normVersion verEmpty).subtotal
      = some (JVal.num (sum_totals (verEmpty.items.map itemLineTotalQ))) :=
  ⟨C6_theorem.1 _ _ (by decide), C6_theorem.2 verEmpty rfl⟩

/-! ## C8 — document text extractor dispatch -/

/-- C8 (counterexample): a `.csv` attachment is outside the PDF,
word-processor and spreadsheet branches and its payload decodes fine as
UTF-8, yet `_extract_text_from_attachment` returns `None` — only the `.txt`
and empty suffixes are decoded as UTF-8; every other unhandled suffix falls
through to `return None` without attempting a decode. -/
theorem C8_counterexample :
    extract_text_from_attachment attCsv = none ∧ attCsv.utf8Text = some "a,b" :=
  ⟨rfl, rfl⟩

/-- C8 (amended): an attachment whose lower-cased suffix is `.txt` or empty
is decoded directly as UTF-8 text (absent exactly when the decode fails);
an attachment whose suffix is outside all handled branches
(`.txt`/empty/`.pdf`/`.docx`/`.xlsx`/`.xlsm`) yields absent unconditionally,
its bytes never decoded. -/
theorem C8_theorem : ∀ a : AttachmentDoc,
    ((strLower a.suffix = ".txt" ∨ strLower a.suffix = "") →
      extract_text_from_attachment a = a.utf8Text) ∧
    (strLower a.suffix ∉ ([".txt", "", ".pdf", ".docx", ".xlsx", ".xlsm"] : List String) →
      extract_text_from_attachment a = none) := by
  intro a
  constructor
  · intro h
    simp [extract_text_from_attachment, read_text_safe, h]
  · intro h
    simp only [List.mem_cons, List.mem_singleton, not_or] at h
    obtain ⟨h1, h2, h3, h4, h5, h6⟩ := h
    simp [extract_text_from_attachment, h1, h2, h3, h4, h5, h6]

/-- C8 (witness): the theorem applied to a decodable `.TXT` attachment and to
an (unhandled) legacy `.xls` attachment. -/
theorem C8_witness :
    extract_text_from_attachment ⟨".TXT", some "hello", none, none, none⟩ = some "hello" ∧
    extract_text_from_attachment ⟨".xls", some "x", none, none, none⟩ = none := by
  have h1 := C8_theorem ⟨".TXT", some "hello", none, none, none⟩
  have h2 := C8_theorem ⟨".xls", some "x", none, none, none⟩
  exact ⟨h1.1 (Or.inl (by decide)), h2.2 (by decide)⟩

/-! ## C4 — the adapter can raise on non-object JSON -/

/-- C4: the claim (and spec §4.3) says `extract_quote_json` never raises and
always returns a value with `vendor.name` and `versions` present.  The code
catches call/parse failures (returning the canonical empty result), but runs
schema validation and the `setdefault` repair *outside* the `try` block: a
model response whose JSON parses to a non-object — e.g. the text `"[]"` —
fails validation and then crashes with `AttributeError` on
`data.setdefault(...)`, contradicting the code's own comment ("Best-effort:
if invalid, still return data but ensure required keys exist").  The
call-failure path and the no-key path do return the canonical empty result. -/
theorem C4_theorem :
    extract_quote_json true (some (Json.arr [])) = .error "AttributeError" ∧
    extract_quote_json true none = .ok canonicalEmpty ∧
    extract_quote_json false (some (Json.arr [])) = .ok canonicalEmpty :=
  ⟨rfl, rfl, rfl⟩

/-! ## Persistence-layer lemmas -/

theorem except_bind_ok {ε α β : Type} (a : α) (f : α → Except ε β) :
    (Bind.bind (Except.ok a) f : Except ε β) = f a := rfl

theorem except_pure_eq {ε α : Type} (a : α) : (pure a : Except ε α) = Except.ok a := rfl

theorem upsert_vendor_emptyTable (db : DB) (h : db.vendors = [])
    (name domain : Option String) :
    upsert_vendor db name domain = .ok (db.nextVendorId,
      { db with vendors := [⟨db.nextVendorId, name, domain⟩],
                nextVendorId := db.nextVendorId + 1 }) := by
  cases hd : pyTruthyStr domain <;> cases hn : pyTruthyStr name <;>
    simp [upsert_vendor, one_or_none, h, hd, hn, except_bind_ok, except_pure_eq]

theorem upsert_vendor_found (db : DB) (vid : Nat) (name domain : Option String)
    (h : db.vendors = [⟨vid, name, domain⟩])
    (hv : pyTruthyStr name = true ∨ pyTruthyStr domain = true) :
    upsert_vendor db name domain = .ok (vid, db) := by
  cases hd : pyTruthyStr domain
  · have hn : pyTruthyStr name = true := by
      rcases hv with h1 | h1
      · exact h1
      · rw [hd] at h1; cases h1
    simp [upsert_vendor, one_or_none, h, hd, hn, except_bind_ok, except_pure_eq,
      updVendors]
    rw [← h]
  · simp [upsert_vendor, one_or_none, h, hd, except_bind_ok, except_pure_eq,
      updVendors]
    rw [← h]

theorem gocq_emptyTable (db : DB) (h : db.quotes = [])
    (tid vid aeid : Option Nat) :
    get_or_create_quote db tid vid aeid = .ok
      (⟨db.nextQuoteId, tid, vid, aeid, some "active"⟩,
        { db with quotes := [⟨db.nextQuoteId, tid, vid, aeid, some "active"⟩],
                  nextQuoteId := db.nextQuoteId + 1 }) := by
  simp [get_or_create_quote, one_or_none, h, except_bind_ok, except_pure_eq]

theorem gocq_found_anchored (db : DB) (q : QuoteRow) (tid vid aeid : Option Nat)
    (h : db.quotes = [q]) (hk : quoteKey tid vid q = true)
    (ha : ∃ x, q.anchor_email_id = some x) :
    get_or_create_quote db tid vid aeid = .ok (q, db) := by
  obtain ⟨x, hx⟩ := ha
  simp [get_or_create_quote, one_or_none, h, hk, hx, except_bind_ok, except_pure_eq]

theorem versionKey_computedRow (qid eid vid : Nat) (ver : Version) :
    versionKey qid eid (computedRow qid eid vid ver) = true := by
  simp [versionKey, computedRow]

theorem mkItemRows_map_data (vid : Nat) :
    ∀ (items : List Item) (iid : Nat),
      (mkItemRows vid iid items).map itemData = items.map (itemDataOf vid) := by
  intro items
  induction items with
  | nil => intro iid; rfl
  | cons it rest ih => intro iid; simp [mkItemRows, mkItemRow, itemData, itemDataOf, ih]

theorem mkItemRows_filter_self (vid : Nat) :
    ∀ (items : List Item) (iid : Nat),
      (mkItemRows vid iid items).filter (fun it => !(it.quote_version_id == vid)) = [] := by
  intro items
  induction items with
  | nil => intro iid; rfl
  | cons it rest ih => intro iid; simp [mkItemRows, mkItemRow, List.filter, ih]

theorem persistVersion_notfound (db : DB) (qid eid : Nat) (ver : Version)
    (h : db.versions.filter (versionKey qid eid) = []) :
    persistVersion db qid eid ver = .ok
      { db with versions := db.versions ++ [computedRow qid eid db.nextVersionId ver],
                nextVersionId := db.nextVersionId + 1,
                items := db.items.filter
                    (fun it => !(it.quote_version_id == db.nextVersionId))
                  ++ mkItemRows db.nextVersionId db.nextItemId ver.items,
                nextItemId := db.nextItemId + ver.items.length } := by
  simp [persistVersion, get_or_create_version, one_or_none, h, except_bind_ok,
    except_pure_eq, replace_items, computedRow]

theorem persistVersion_found (db : DB) (qid eid : Nat) (ver : Version) (v0 : VersionRow)
    (h : db.versions.filter (versionKey qid eid) = [v0]) :
    persistVersion db qid eid ver = .ok
      { db with versions := db.versions.map
                  (fun w => if w.id == v0.id then computedRow qid eid v0.id ver else w),
                items := db.items.filter (fun it => !(it.quote_version_id == v0.id))
                  ++ mkItemRows v0.id db.nextItemId ver.items,
                nextItemId := db.nextItemId + ver.items.length } := by
  have hm : versionKey qid eid v0 = true := by
    have hmem : v0 ∈ db.versions.filter (versionKey qid eid) := by
      rw [h]; exact List.mem_singleton.mpr rfl
    exact (List.mem_filter.mp hmem).2
  have hq1 : v0.quote_id = qid := by
    simp [versionKey] at hm; exact hm.1
  have hq2 : v0.source_email_id = eid := by
    simp [versionKey] at hm; exact hm.2
  simp [persistVersion, get_or_create_version, one_or_none, h, except_bind_ok,
    except_pure_eq, replace_items, computedRow, hq1, hq2]

theorem persistVersions_found (qid eid : Nat) :
    ∀ (vers : List Version) (db : DB) (n : Nat) (v0 : VersionRow),
      db.versions = [v0] → versionKey qid eid v0 = true →
      ∃ db2 iid, persistVersions qid eid vers db n = .ok (db2, n + vers.length) ∧
        db2.vendors = db.vendors ∧ db2.quotes = db.quotes ∧
        db2.nextVersionId = db.nextVersionId ∧
        ((vers = [] ∧ db2 = db) ∨
          (∃ vlast, vers.getLast? = some vlast ∧
            db2.versions = [computedRow qid eid v0.id vlast] ∧
            db2.items = db.items.filter (fun it => !(it.quote_version_id == v0.id))
              ++ mkItemRows v0.id iid vlast.items)) := by
  intro vers
  induction vers with
  | nil =>
    intro db n v0 h hk
    exact ⟨db, 0, rfl, rfl, rfl, rfl, Or.inl ⟨rfl, rfl⟩⟩
  | cons ver rest ih =>
    intro db n v0 h hk
    have hf : db.versions.filter (versionKey qid eid) = [v0] := by
      rw [h]
      simp [hk]
    have hstep := persistVersion_found db qid eid ver v0 hf
    have hv1 : (DB.mk db.vendors db.quotes
          (db.versions.map
            (fun w => if w.id == v0.id then computedRow qid eid v0.id ver else w))
          (db.items.filter (fun it => !(it.quote_version_id == v0.id))
            ++ mkItemRows v0.id db.nextItemId ver.items)
          db.nextVendorId db.nextQuoteId db.nextVersionId
          (db.nextItemId + ver.items.length)).versions
        = [computedRow qid eid v0.id ver] := by
      simp [h]
    obtain ⟨db2, iid, heq, hvend, hq, hnv, hcase⟩ :=
      ih _ (n + 1) (computedRow qid eid v0.id ver) hv1 (versionKey_computedRow qid eid v0.id ver)
    have hrun : persistVersions qid eid (ver :: rest) db n
        = .ok (db2, n + (ver :: rest).length) := by
      show (do
        let dbx ← persistVersion db qid eid ver
        persistVersions qid eid rest dbx (n + 1)) = _
      rw [hstep, except_bind_ok, heq]
      have hlen : n + 1 + rest.length = n + (ver :: rest).length := by
        simp [List.length_cons]
        omega
      rw [hlen]
    rcases hcase with ⟨hrest, hdb2⟩ | ⟨vlast, hlast, hvers, hitems⟩
    · subst hrest
      refine ⟨db2, db.nextItemId, hrun, by rw [hvend], by rw [hq], by rw [hnv],
        Or.inr ⟨ver, by simp, ?_, ?_⟩⟩
      · rw [hdb2, hv1]
      · rw [hdb2]
    · refine ⟨db2, iid, hrun, by rw [hvend], by rw [hq], by rw [hnv],
        Or.inr ⟨vlast, ?_, ?_, ?_⟩⟩
      · cases rest with
        | nil => simp at hlast
        | cons b bs => simpa using hlast
      · exact hvers
      · rw [hitems]
        show ((db.items.filter (fun it => !(it.quote_version_id == v0.id))
            ++ mkItemRows v0.id db.nextItemId ver.items).filter
              (fun it => !(it.quote_version_id == v0.id)))
            ++ mkItemRows v0.id iid vlast.items = _
        rw [List.filter_append, mkItemRows_filter_self, List.filter_filter]
        simp

theorem persistVersions_clean (qid eid : Nat) (vers : List Version) (db : DB) (n : Nat)
    (hverz : db.versions = []) (hitz : db.items = []) :
    ∃ db2 iid, persistVersions qid eid vers db n = .ok (db2, n + vers.length) ∧
      db2.vendors = db.vendors ∧ db2.quotes = db.quotes ∧
      ((vers = [] ∧ db2 = db) ∨
        (∃ vlast, vers.getLast? = some vlast ∧
          db2.versions = [computedRow qid eid db.nextVersionId vlast] ∧
          db2.nextVersionId = db.nextVersionId + 1 ∧
          db2.items = mkItemRows db.nextVersionId iid vlast.items)) := by
  cases vers with
  | nil => exact ⟨db, 0, rfl, rfl, rfl, Or.inl ⟨rfl, rfl⟩⟩
  | cons ver rest =>
    have hf : db.versions.filter (versionKey qid eid) = [] := by
      rw [hverz]
      rfl
    have hstep := persistVersion_notfound db qid eid ver hf
    have hv1 : (DB.mk db.vendors db.quotes
          (db.versions ++ [computedRow qid eid db.nextVersionId ver])
          (db.items.filter (fun it => !(it.quote_version_id == db.nextVersionId))
            ++ mkItemRows db.nextVersionId db.nextItemId ver.items)
          db.nextVendorId db.nextQuoteId (db.nextVersionId + 1)
          (db.nextItemId + ver.items.length)).versions
        = [computedRow qid eid db.nextVersionId ver] := by
      simp [hverz]
    obtain ⟨db2, iid, heq, hvend, hq, hnv, hcase⟩ :=
      persistVersions_found qid eid rest _ (n + 1) (computedRow qid eid db.nextVersionId ver)
        hv1 (versionKey_computedRow qid eid db.nextVersionId ver)
    have hrun : persistVersions qid eid (ver :: rest) db n
        = .ok (db2, n + (ver :: rest).length) := by
      show (do
        let dbx ← persistVersion db qid eid ver
        persistVersions qid eid rest dbx (n + 1)) = _
      rw [hstep, except_bind_ok, heq]
      have hlen : n + 1 + rest.length = n + (ver :: rest).length := by
        simp [List.length_cons]
        omega
      rw [hlen]
    rcases hcase with ⟨hrest, hdb2⟩ | ⟨vlast, hlast, hvers, hitems⟩
    · subst hrest
      refine ⟨db2, db.nextItemId, hrun, by rw [hvend], by rw [hq],
        Or.inr ⟨ver, by simp, ?_, ?_, ?_⟩⟩
      · rw [hdb2, hv1]
      · rw [hdb2]
      · rw [hdb2]
        show db.items.filter (fun it => !(it.quote_version_id == db.nextVersionId))
            ++ mkItemRows db.nextVersionId db.nextItemId ver.items = _
        rw [hitz]
        rfl
    · refine ⟨db2, iid, hrun, by rw [hvend], by rw [hq],
        Or.inr ⟨vlast, ?_, ?_, ?_, ?_⟩⟩
      · cases rest with
        | nil => simp at hlast
        | cons b bs => simpa using hlast
      · exact hvers
      · rw [hnv]
      · rw [hitems]
        show ((db.items.filter (fun it => !(it.quote_version_id == db.nextVersionId))
            ++ mkItemRows db.nextVersionId db.nextItemId ver.items).filter
              (fun it => !(it.quote_version_id == db.nextVersionId)))
            ++ mkItemRows db.nextVersionId iid vlast.items = _
        rw [hitz, List.filter_append, mkItemRows_filter_self]
        rfl

theorem process_email_fromEmpty (m : EmailRec) (ext : Extraction)
    (hpf : prefilterPass m = true) :
    ∃ db1 iid,
      process_email [m] ext dbEmpty m.id
        = .ok (⟨m.id, true, none, some ((normalize_extraction ext).versions.length)⟩, db1) ∧
      db1.vendors = [⟨1, ext.vendor_name, ext.vendor_domain⟩] ∧
      db1.quotes = [⟨1, m.thread_id, some 1, some m.id, some "active"⟩] ∧
      (((normalize_extraction ext).versions = [] ∧ db1.versions = [] ∧ db1.items = []) ∨
        (∃ vlast, (normalize_extraction ext).versions.getLast? = some vlast ∧
          db1.versions = [computedRow 1 m.id 1 vlast] ∧
          db1.items = mkItemRows 1 iid vlast.items)) := by
  have hfind : List.find? (fun e => e.id == m.id) [m] = some m := by simp
  have e1 := upsert_vendor_emptyTable dbEmpty rfl (normalize_extraction ext).vendor_name
    (normalize_extraction ext).vendor_domain
  have e2 := gocq_emptyTable
    (DB.mk [⟨1, (normalize_extraction ext).vendor_name,
        (normalize_extraction ext).vendor_domain⟩] [] [] [] 2 1 1 1)
    rfl m.thread_id (some 1) (some m.id)
  obtain ⟨db2, iid, heq, hvend, hq, hcase⟩ :=
    persistVersions_clean 1 m.id (normalize_extraction ext).versions
      (DB.mk [⟨1, (normalize_extraction ext).vendor_name,
          (normalize_extraction ext).vendor_domain⟩]
        [⟨1, m.thread_id, some 1, some m.id, some "active"⟩] [] [] 2 2 1 1) 0 rfl rfl
  simp only [dbEmpty] at e1
  simp only at e2
  refine ⟨db2, iid, ?_, ?_, ?_, ?_⟩
  · simp [process_email, hfind, hpf, dbEmpty, e1, e2, heq, except_bind_ok,
      except_pure_eq]
  · rw [hvend]
    rfl
  · rw [hq]
  · rcases hcase with ⟨hnil, hdb2⟩ | ⟨vlast, hlast, hvers, hnv2, hitems⟩
    · subst hdb2
      exact Or.inl ⟨hnil, rfl, rfl⟩
    · exact Or.inr ⟨vlast, hlast, hvers, hitems⟩

theorem process_email_again (m : EmailRec) (ext : Extraction) (db1 : DB)
    (vlast : Version) (iid : Nat)
    (hpf : prefilterPass m = true)
    (hv : pyTruthyStr ext.vendor_name = true ∨ pyTruthyStr ext.vendor_domain = true)
    (hvend : db1.vendors = [⟨1, ext.vendor_name, ext.vendor_domain⟩])
    (hq : db1.quotes = [⟨1, m.thread_id, some 1, some m.id, some "active"⟩])
    (hlast : (normalize_extraction ext).versions.getLast? = some vlast)
    (hvers : db1.versions = [computedRow 1 m.id 1 vlast])
    (hitems : db1.items = mkItemRows 1 iid vlast.items) :
    ∃ db2 iid2,
      process_email [m] ext db1 m.id
        = .ok (⟨m.id, true, none, some ((normalize_extraction ext).versions.length)⟩, db2) ∧
      db2.vendors = db1.vendors ∧ db2.quotes = db1.quotes ∧ db2.versions = db1.versions ∧
      db2.items = mkItemRows 1 iid2 vlast.items := by
  have hfind : List.find? (fun e => e.id == m.id) [m] = some m := by simp
  have e1 : upsert_vendor db1 (normalize_extraction ext).vendor_name
      (normalize_extraction ext).vendor_domain = .ok (1, db1) :=
    upsert_vendor_found db1 1 _ _ hvend hv
  have e2 : get_or_create_quote db1 m.thread_id (some 1) (some m.id)
      = .ok (⟨1, m.thread_id, some 1, some m.id, some "active"⟩, db1) :=
    gocq_found_anchored db1 _ m.thread_id (some 1) (some m.id) hq
      (by simp [quoteKey]) ⟨m.id, rfl⟩
  obtain ⟨db2, iid2, heq, hvend2, hq2, hnv2, hcase⟩ :=
    persistVersions_found 1 m.id (normalize_extraction ext).versions db1 0
      (computedRow 1 m.id 1 vlast) hvers (versionKey_computedRow 1 m.id 1 vlast)
  rcases hcase with ⟨hnil, _⟩ | ⟨vl2, hl2, hvers2, hitems2⟩
  · rw [hnil] at hlast
    simp at hlast
  · have hvl : vl2 = vlast := by
      rw [hl2] at hlast
      exact Option.some.inj hlast
    rw [hvl] at hvers2 hitems2
    refine ⟨db2, iid2, ?_, by rw [hvend2], by rw [hq2], ?_, ?_⟩
    · simp [process_email, hfind, hpf, e1, e2, heq, except_bind_ok, except_pure_eq]
    · rw [hvers2, hvers]
      rfl
    · rw [hitems2, hitems]
      have hfil : (mkItemRows 1 iid vlast.items).filter
          (fun it => !(it.quote_version_id == (computedRow 1 m.id 1 vlast).id)) = [] :=
        mkItemRows_filter_self 1 vlast.items iid
      rw [hfil]
      rfl

/-! ## C1 — idempotence of `process_email` -/

/-- C1 (counterexample): with the canonical empty model response
(`vendor.name = null`, no domain, no versions) — exactly what the adapter
returns when no API key is configured — the second `process_email` call does
**not** leave the state identical: `upsert_vendor(None, None)` matches
nothing and inserts a fresh vendor row on every call, and the quote lookup
keyed on the new vendor id then inserts a second quote row. -/
theorem C1_counterexample :
    (do
      let r1 ← process_email [mQuote] extNullVendor dbEmpty 1
      let r2 ← process_email [mQuote] extNullVendor r1.2 1
      pure (r1.2.vendors.length, r1.2.quotes.length, r2.2.vendors.length, r2.2.quotes.length)
        : Except String (Nat × Nat × Nat × Nat)) = .ok (1, 1, 2, 2) := by rfl

/-- C1 (amended): provided the extraction identifies its vendor (a truthy
name or domain) and contains at least one version, processing a stored
message twice from a fresh store with the identical model response is
idempotent: the second call returns the same result, and leaves the same
single vendor row, the same single quote row for the (thread, vendor) pair,
the same single version row for the (quote, message) pair, and an item set
(up to surrogate ids) equal to the items of the last extracted version. -/
theorem C1_theorem (m : EmailRec) (ext : Extraction)
    (hpf : prefilterPass m = true)
    (hv : pyTruthyStr ext.vendor_name = true ∨ pyTruthyStr ext.vendor_domain = true)
    (hne : ext.versions ≠ []) :
    ∃ r db1 db2,
      process_email [m] ext dbEmpty m.id = .ok (r, db1) ∧
      process_email [m] ext db1 m.id = .ok (r, db2) ∧
      db2.vendors = db1.vendors ∧ db2.quotes = db1.quotes ∧ db2.versions = db1.versions ∧
      db2.items.map itemData = db1.items.map itemData ∧
      db1.vendors.length = 1 ∧ db1.quotes.length = 1 ∧ db1.versions.length = 1 ∧
      (∀ vlast, (normalize_extraction ext).versions.getLast? = some vlast →
        db1.items.map itemData = vlast.items.map (itemDataOf 1)) := by
  obtain ⟨db1, iid, hrun1, hvend, hq, hcase⟩ := process_email_fromEmpty m ext hpf
  have hnx : (normalize_extraction ext).versions ≠ [] := by
    intro hmap
    exact hne (List.map_eq_nil_iff.mp hmap)
  rcases hcase with ⟨hnil, -, -⟩ | ⟨vlast, hlast, hvers, hitems⟩
  · exact absurd hnil hnx
  · obtain ⟨db2, iid2, hrun2, hvend2, hq2, hvers2, hitems2⟩ :=
      process_email_again m ext db1 vlast iid hpf hv hvend hq hlast hvers hitems
    refine ⟨_, db1, db2, hrun1, hrun2, hvend2, hq2, hvers2, ?_, ?_, ?_, ?_, ?_⟩
    · rw [hitems2, hitems, mkItemRows_map_data, mkItemRows_map_data]
    · simp [hvend]
    · simp [hq]
    · simp [hvers]
    · intro vl hvl
      have hveq : vl = vlast := by
        rw [hlast] at hvl
        exact (Option.some.inj hvl).symm
      rw [hveq, hitems, mkItemRows_map_data]

/-- C1 (witness): the amended theorem at the happy-path scenario — subject
"quote", a one-version extraction from "Vendor Inc." — with every hypothesis
discharged concretely. -/
theorem C1_witness :
    ∃ r db1 db2,
      process_email [mQuote] extOneVersion dbEmpty mQuote.id = .ok (r, db1) ∧
      process_email [mQuote] extOneVersion db1 mQuote.id = .ok (r, db2) ∧
      db2.vendors = db1.vendors ∧ db2.quotes = db1.quotes ∧ db2.versions = db1.versions ∧
      db2.items.map itemData = db1.items.map itemData ∧
      db1.vendors.length = 1 ∧ db1.quotes.length = 1 ∧ db1.versions.length = 1 ∧
      (∀ vlast, (normalize_extraction extOneVersion).versions.getLast? = some vlast →
        db1.items.map itemData = vlast.items.map (itemDataOf 1)) :=
  C1_theorem mQuote extOneVersion (by decide) (Or.inl (by decide)) (by decide)

/-! ## C10 — multiple versions from one message collapse into one row -/

/-- C10: when the extraction holds two or more versions, `process_email`
persists at most one `QuoteVersion` row for the (quote, source message) pair:
every version in the list hits the same `(quote_id, source_email_id)` natural
key, so each successive one overwrites the same row and replaces the same
row's items — the stored version and items are those of the **last** listed
(normalized) version — while the returned result still reports
`processed = true` with a version count equal to the number of versions in
the extraction. -/
theorem C10_theorem (m : EmailRec) (ext : Extraction)
    (hpf : prefilterPass m = true) (h2 : 2 ≤ ext.versions.length) :
    ∃ db1 iid,
      process_email [m] ext dbEmpty m.id
        = .ok (⟨m.id, true, none, some ext.versions.length⟩, db1) ∧
      db1.versions.length = 1 ∧
      (∀ vlast, ext.versions.getLast? = some vlast →
        db1.versions = [computedRow 1 m.id 1 (normVersion vlast)] ∧
        db1.items = mkItemRows 1 iid (normVersion vlast).items) := by
  obtain ⟨db1, iid, hrun1, hvend, hq, hcase⟩ := process_email_fromEmpty m ext hpf
  have hlen : (normalize_extraction ext).versions.length = ext.versions.length := by
    simp [normalize_extraction]
  rw [hlen] at hrun1
  have hnx : (normalize_extraction ext).versions ≠ [] := by
    intro hmap
    have hnil : ext.versions = [] := List.map_eq_nil_iff.mp hmap
    rw [hnil] at h2
    simp at h2
  rcases hcase with ⟨hnil, -, -⟩ | ⟨vlast, hlast, hvers, hitems⟩
  · exact absurd hnil hnx
  · refine ⟨db1, iid, hrun1, by simp [hvers], ?_⟩
    intro vl hvl
    have hml : (normalize_extraction ext).versions.getLast? = some (normVersion vl) := by
      show (ext.versions.map normVersion).getLast? = _
      rw [List.getLast?_map, hvl]
      rfl
    have hveq : vlast = normVersion vl := by
      rw [hml] at hlast
      exact (Option.some.inj hlast).symm
    rw [hveq] at hvers hitems
    exact ⟨hvers, hitems⟩

/-- C10 (witness): the theorem at the concrete two-version extraction: the
run reports two versions but a single stored row, holding the second
version's data and items. -/
theorem C10_witness :
    ∃ db1 iid,
      process_email [mQuote] extTwoVersions dbEmpty mQuote.id
        = .ok (⟨mQuote.id, true, none, some extTwoVersions.versions.length⟩, db1) ∧
      db1.versions.length = 1 ∧
      (∀ vlast, extTwoVersions.versions.getLast? = some vlast →
        db1.versions = [computedRow 1 mQuote.id 1 (normVersion vlast)] ∧
        db1.items = mkItemRows 1 iid (normVersion vlast).items) :=
  C10_theorem mQuote extTwoVersions (by decide) (by decide)

theorem except_bind_err {ε α β : Type} (e : ε) (f : α → Except ε β) :
    (Bind.bind (Except.error e) f : Except ε β) = .error e := rfl

theorem one_or_none_none {α : Type} {p : α → Bool} {l : List α}
    (h : one_or_none p l = .ok none) : l.filter p = [] := by
  unfold one_or_none at h
  rcases hf : l.filter p with _ | ⟨a, as⟩
  · rfl
  · rw [hf] at h
    cases as <;> simp at h

theorem one_or_none_some {α : Type} {p : α → Bool} {l : List α} {a : α}
    (h : one_or_none p l = .ok (some a)) : l.filter p = [a] := by
  unfold one_or_none at h
  rcases hf : l.filter p with _ | ⟨b, bs⟩
  · rw [hf] at h
    simp at h
  · rw [hf] at h
    cases bs with
    | nil =>
      simp at h
      rw [h]
    | cons c cs => simp at h

theorem upsert_vendor_effects (db : DB) (name domain : Option String) (vid : Nat) (db2 : DB)
    (h : upsert_vendor db name domain = .ok (vid, db2)) :
    db2.quotes = db.quotes ∧ db2.versions = db.versions ∧ db2.items = db.items := by
  unfold upsert_vendor at h
  cases hd : pyTruthyStr domain
  · cases hn : pyTruthyStr name
    · simp [hd, hn, except_pure_eq, except_bind_ok] at h
      obtain ⟨-, h2⟩ := h
      rw [← h2]
      exact ⟨rfl, rfl, rfl⟩
    · cases ho : one_or_none (fun v => v.name == name) db.vendors with
      | error e => simp [hd, hn, ho, except_pure_eq, except_bind_ok, except_bind_err] at h
      | ok o =>
        cases o with
        | none =>
          simp [hd, hn, ho, except_pure_eq, except_bind_ok] at h
          obtain ⟨-, h2⟩ := h
          rw [← h2]
          exact ⟨rfl, rfl, rfl⟩
        | some vendor =>
          simp [hd, hn, ho, except_pure_eq, except_bind_ok] at h
          obtain ⟨-, h2⟩ := h
          rw [← h2]
          exact ⟨rfl, rfl, rfl⟩
  · cases ho : one_or_none (fun v => v.domain == domain) db.vendors with
    | error e => simp [hd, ho, except_pure_eq, except_bind_ok, except_bind_err] at h
    | ok o =>
      cases o with
      | some vendor =>
        simp [hd, ho, except_pure_eq, except_bind_ok] at h
        obtain ⟨-, h2⟩ := h
        rw [← h2]
        exact ⟨rfl, rfl, rfl⟩
      | none =>
        cases hn : pyTruthyStr name
        · simp [hd, hn, ho, except_pure_eq, except_bind_ok] at h
          obtain ⟨-, h2⟩ := h
          rw [← h2]
          exact ⟨rfl, rfl, rfl⟩
        · cases ho2 : one_or_none (fun v => v.name == name) db.vendors with
          | error e =>
            simp [hd, hn, ho, ho2, except_pure_eq, except_bind_ok, except_bind_err] at h
          | ok o2 =>
            cases o2 with
            | none =>
              simp [hd, hn, ho, ho2, except_pure_eq, except_bind_ok] at h
              obtain ⟨-, h2⟩ := h
              rw [← h2]
              exact ⟨rfl, rfl, rfl⟩
            | some vendor =>
              simp [hd, hn, ho, ho2, except_pure_eq, except_bind_ok] at h
              obtain ⟨-, h2⟩ := h
              rw [← h2]
              exact ⟨rfl, rfl, rfl⟩

theorem persistVersion_quotes (db : DB) (qid eid : Nat) (ver : Version) (db2 : DB)
    (h : persistVersion db qid eid ver = .ok db2) :
    db2.quotes = db.quotes ∧ db2.vendors = db.vendors := by
  unfold persistVersion get_or_create_version at h
  cases ho : one_or_none (versionKey qid eid) db.versions with
  | error e => simp [ho, except_bind_err, except_bind_ok] at h
  | ok o =>
    cases o with
    | none =>
      simp [ho, except_bind_ok, except_pure_eq, replace_items] at h
      rw [← h]
      exact ⟨rfl, rfl⟩
    | some v0 =>
      simp [ho, except_bind_ok, except_pure_eq, replace_items] at h
      rw [← h]
      exact ⟨rfl, rfl⟩

theorem persistVersions_quotes (qid eid : Nat) :
    ∀ (vers : List Version) (db : DB) (n : Nat) (db2 : DB) (n2 : Nat),
      persistVersions qid eid vers db n = .ok (db2, n2) →
      db2.quotes = db.quotes ∧ db2.vendors = db.vendors := by
  intro vers
  induction vers with
  | nil =>
    intro db n db2 n2 h
    simp [persistVersions, except_pure_eq] at h
    obtain ⟨h1, -⟩ := h
    rw [← h1]
    exact ⟨rfl, rfl⟩
  | cons ver rest ih =>
    intro db n db2 n2 h
    simp only [persistVersions] at h
    cases hs : persistVersion db qid eid ver with
    | error e =>
      rw [hs, except_bind_err] at h
      cases h
    | ok dbx =>
      rw [hs, except_bind_ok] at h
      obtain ⟨hq1, hv1⟩ := persistVersion_quotes db qid eid ver dbx hs
      obtain ⟨hq2, hv2⟩ := ih dbx (n + 1) db2 n2 h
      exact ⟨hq2.trans hq1, hv2.trans hv1⟩

theorem length_filter_map_congr {α : Type} {f : α → α} {p : α → Bool} {l : List α}
    (h : ∀ x ∈ l, p (f x) = p x) :
    ((l.map f).filter p).length = (l.filter p).length := by
  rw [List.filter_map, List.length_map]
  have hc := List.filter_congr (l := l) (p := p ∘ f) (q := p)
    (by intro x hx; simpa using h x hx)
  rw [hc]

theorem gocq_key_counts (db : DB) (tid vid aeid : Option Nat) (q : QuoteRow) (db2 : DB)
    (h : get_or_create_quote db tid vid aeid = .ok (q, db2))
    (hnodup : (db.quotes.map QuoteRow.id).Nodup)
    (hkey : ∀ t v, (db.quotes.filter (quoteKey t v)).length ≤ 1) :
    (∀ t v, (db2.quotes.filter (quoteKey t v)).length ≤ 1) ∧ 1 ≤ db2.quotes.length := by
  unfold get_or_create_quote at h
  cases ho : one_or_none (quoteKey tid vid) db.quotes with
  | error e =>
    rw [ho, except_bind_err] at h
    cases h
  | ok o =>
    rw [ho, except_bind_ok] at h
    cases o with
    | none =>
      have hfil := one_or_none_none ho
      simp [except_pure_eq] at h
      obtain ⟨-, h2⟩ := h
      constructor
      · intro t v
        rw [← h2]
        show ((db.quotes ++ [(⟨db.nextQuoteId, tid, vid, aeid, some "active"⟩ : QuoteRow)]).filter
          (quoteKey t v)).length ≤ 1
        rw [List.filter_append]
        cases hkq : quoteKey t v ⟨db.nextQuoteId, tid, vid, aeid, some "active"⟩
        · have hone : List.filter (quoteKey t v)
              [(⟨db.nextQuoteId, tid, vid, aeid, some "active"⟩ : QuoteRow)] = [] := by
            simp [List.filter, hkq]
          rw [hone]
          simp
          exact hkey t v
        · have ht : tid = t ∧ vid = v := by
            simp [quoteKey] at hkq
            exact hkq
          obtain ⟨ht1, ht2⟩ := ht
          subst ht1
          subst ht2
          have hone : List.filter (quoteKey tid vid)
              [(⟨db.nextQuoteId, tid, vid, aeid, some "active"⟩ : QuoteRow)]
              = [⟨db.nextQuoteId, tid, vid, aeid, some "active"⟩] := by
            simp [List.filter, hkq]
          rw [hfil, hone]
          simp
      · rw [← h2]
        show 1 ≤ (db.quotes ++ [(⟨db.nextQuoteId, tid, vid, aeid, some "active"⟩ : QuoteRow)]).length
        simp
    | some q0 =>
      have hfil := one_or_none_some ho
      have hq0mem : q0 ∈ db.quotes :=
        (List.mem_filter.mp (by rw [hfil]; exact List.mem_singleton.mpr rfl)).1
      have hq0len : 1 ≤ db.quotes.length := by
        have hne := List.ne_nil_of_mem hq0mem
        have hpos := List.length_pos.mpr hne
        omega
      cases hanchor : (pyTruthyNat aeid && q0.anchor_email_id == none)
      · simp [hanchor, except_pure_eq] at h
        obtain ⟨-, h2⟩ := h
        rw [← h2]
        exact ⟨hkey, hq0len⟩
      · simp [hanchor, except_pure_eq] at h
        obtain ⟨-, h2⟩ := h
        constructor
        · intro t v
          rw [← h2]
          have hpt : ∀ x ∈ db.quotes, quoteKey t v
              (if x.id = q0.id
                then (⟨q0.id, q0.thread_id, q0.vendor_id, aeid, q0.status⟩ : QuoteRow)
                else x) = quoteKey t v x := by
            intro x hx
            by_cases hid : x.id = q0.id
            · have hxq : x = q0 :=
                List.inj_on_of_nodup_map hnodup hx hq0mem hid
              subst hxq
              simp [quoteKey]
            · simp [hid]
          have hlm := length_filter_map_congr (p := quoteKey t v) hpt
          exact hlm.trans_le (hkey t v)
        · rw [← h2]
          have hml : (db.quotes.map (fun x => if x.id = q0.id
              then (⟨q0.id, q0.thread_id, q0.vendor_id, aeid, q0.status⟩ : QuoteRow)
              else x)).length = db.quotes.length := List.length_map _ _
          exact le_of_le_of_eq hq0len hml.symm

/-! ## C7 — quote creation and (thread, vendor) uniqueness -/

/-- C7 (counterexample): a message passing the prefilter whose extraction
names a vendor but contains **zero** versions still gets a Quote row:
`process_email` calls `get_or_create_quote` before the version loop,
unconditionally — the claim's "creates no quote for a message whose
extraction contains zero versions" is false. -/
theorem C7_counterexample :
    (process_email [mQuote] extNoVersions dbEmpty 1).map
      (fun p => (p.1.versions, p.2.quotes.length, p.2.versions.length))
      = .ok (some 0, 1, 0) := by rfl

/-- C7 (amended): `process_email` creates a Quote for the (thread, vendor)
pair of every message that passes the prefilter, regardless of how many
versions the extraction contains (zero included); and, starting from a store
whose quote ids are distinct and which has at most one quote per
(thread_id, vendor_id) natural key, any successful run leaves at most one
quote per natural key — no duplicate quote is ever created, because the
lookup precedes the insert and the anchor backfill never changes key
fields. -/
theorem C7_theorem (emails : List EmailRec) (ext : Extraction) (db : DB) (eid : Nat)
    (r : PEResult) (db2 : DB)
    (hrun : process_email emails ext db eid = .ok (r, db2))
    (hnodup : (db.quotes.map QuoteRow.id).Nodup)
    (hkey : ∀ t v, (db.quotes.filter (quoteKey t v)).length ≤ 1) :
    (∀ t v, (db2.quotes.filter (quoteKey t v)).length ≤ 1) ∧
    (r.processed = true → 1 ≤ db2.quotes.length) := by
  unfold process_email at hrun
  cases hfind : emails.find? (fun e => e.id == eid) with
  | none =>
    rw [hfind] at hrun
    simp [except_pure_eq] at hrun
    obtain ⟨h1, h2⟩ := hrun
    rw [← h2]
    refine ⟨hkey, ?_⟩
    intro hp
    rw [← h1] at hp
    simp at hp
  | some email =>
    rw [hfind] at hrun
    cases hpf : prefilterPass email with
    | false =>
      simp [hpf, except_pure_eq] at hrun
      obtain ⟨h1, h2⟩ := hrun
      rw [← h2]
      refine ⟨hkey, ?_⟩
      intro hp
      rw [← h1] at hp
      simp at hp
    | true =>
      simp only [hpf, Bool.not_true] at hrun
      cases hu : upsert_vendor db (normalize_extraction ext).vendor_name
          (normalize_extraction ext).vendor_domain with
      | error e =>
        simp only [hu, except_bind_err] at hrun
        cases hrun
      | ok p =>
        obtain ⟨vid, db1⟩ := p
        simp only [hu, except_bind_ok] at hrun
        obtain ⟨hq1, -, -⟩ := upsert_vendor_effects db _ _ vid db1 hu
        cases hg : get_or_create_quote db1 email.thread_id (some vid) (some eid) with
        | error e =>
          simp only [hg, except_bind_err] at hrun
          cases hrun
        | ok pq =>
          obtain ⟨quote, dbB⟩ := pq
          simp only [hg, except_bind_ok] at hrun
          have hnodup1 : (db1.quotes.map QuoteRow.id).Nodup := by
            rw [hq1]
            exact hnodup
          have hkey1 : ∀ t v, (db1.quotes.filter (quoteKey t v)).length ≤ 1 := by
            intro t v
            rw [hq1]
            exact hkey t v
          obtain ⟨hc1, hc2⟩ := gocq_key_counts db1 email.thread_id (some vid) (some eid)
            quote dbB hg hnodup1 hkey1
          cases hp2 : persistVersions quote.id eid (normalize_extraction ext).versions dbB 0 with
          | error e =>
            simp only [hp2, except_bind_err] at hrun
            cases hrun
          | ok pr =>
            obtain ⟨db3, n⟩ := pr
            simp only [hp2, except_bind_ok] at hrun
            obtain ⟨hq3, -⟩ := persistVersions_quotes quote.id eid _ dbB 0 db3 n hp2
            simp [except_pure_eq] at hrun
            obtain ⟨-, h2⟩ := hrun
            rw [← h2]
            refine ⟨?_, ?_⟩
            · intro t v
              rw [hq3]
              exact hc1 t v
            · intro hp
              rw [hq3]
              exact hc2

/-- C7 (witness): the amended theorem applied to a concrete successful run —
the zero-version extraction from a fresh store — with every hypothesis
discharged: the resulting store holds at most one quote per key and at least
one quote. -/
theorem C7_witness :
    ((DB.mk [⟨1, some "Acme", some "acme.com"⟩]
        [⟨1, some 1, some 1, some 1, some "active"⟩] [] [] 2 2 1 1).quotes.filter
      (quoteKey (some 1) (some 1))).length ≤ 1 ∧
    1 ≤ (DB.mk [⟨1, some "Acme", some "acme.com"⟩]
        [⟨1, some 1, some 1, some 1, some "active"⟩] [] [] 2 2 1 1).quotes.length := by
  have hmain := C7_theorem [mQuote] extNoVersions dbEmpty 1
    ⟨1, true, none, some 0⟩
    (DB.mk [⟨1, some "Acme", some "acme.com"⟩]
      [⟨1, some 1, some 1, some 1, some "active"⟩] [] [] 2 2 1 1)
    (by rfl) (by simp [dbEmpty]) (by intro t v; simp [dbEmpty])
  exact ⟨hmain.1 (some 1) (some 1), hmain.2 rfl⟩
